import Mathlib

/-!
Verification of the cable-game repository (hezy/cable-game).

Shallow embedding of the obstacle/collision core of `cable-game.py`
(the current variant: correlated obstacle generation, moving obstacles,
collision/win state machine) and of the Game-of-Life / random-soup parts
of `archive/cable-game-v5.py`.

Cells are integer pairs.  Python `set` becomes `Finset`, the trail list
stays a `List`, Python dicts become association lists with
insert-or-overwrite semantics, and each unbounded `while` loop or call to
the `random` module is made explicit: loops take a fuel argument and
random draws are supplied as oracle streams (`Nat → ...` functions), with
`randint (0, w-1)` modelled as an arbitrary natural draw reduced `% w`.
-/

namespace CableGame

/-- Cell of the grid, an integer coordinate pair (x, y). -/
abbrev Cell := Int × Int

/-- Direction enum of the source: the four cardinal directions. -/
inductive Direction where
  | up
  | down
  | left
  | right
deriving DecidableEq, Repr

/-- Direction.value from the source: the unit vector of a direction. -/
def Direction.value : Direction → Int × Int
  | .up => (0, -1)
  | .down => (0, 1)
  | .left => (-1, 0)
  | .right => (1, 0)

/-- Game phase: the source keeps `running : Bool` and distinguishes the
win exit (success sound, "You win!") from the loss exit (fail sound);
we record that distinction as a three-valued phase. -/
inductive GamePhase where
  | active
  | won
  | lost
deriving DecidableEq, Repr

/-- Game state of `cable-game.py`: grid bounds, trail (cable, head last),
current heading, obstacle set, outlet, and phase.  The obstacle direction
map is threaded separately (see `updateObstaclesFold`). -/
structure GameState where
  width : Int
  height : Int
  cable : List Cell
  direction : Direction
  obstacles : Finset Cell
  outlet : Cell
  phase : GamePhase
deriving DecidableEq

/-- Head of the cable, `self.cable[-1]` in the source (the cable is never
empty in any state the game constructs; the default is irrelevant). -/
def headCell (s : GameState) : Cell := s.cable.getLast?.getD (0, 0)

/-- Proposed next head, `new_head = (head[0] + dx, head[1] + dy)`. -/
def newHead (s : GameState) : Cell :=
  ((headCell s).1 + s.direction.value.1, (headCell s).2 + s.direction.value.2)

/-- Loss condition of `Game.update` (cable-game.py lines 229-236):
new head out of bounds, or on the cable, or on an obstacle. -/
def lostCond (s : GameState) : Prop :=
  (newHead s).1 < 0 ∨ s.width ≤ (newHead s).1 ∨
  (newHead s).2 < 0 ∨ s.height ≤ (newHead s).2 ∨
  newHead s ∈ s.cable ∨ newHead s ∈ s.obstacles

instance (s : GameState) : Decidable (lostCond s) := by
  unfold lostCond; infer_instance

/-- Collision/win step of `Game.update` (cable-game.py lines 225-246):
after the obstacle update, compute the new head; on the loss condition
stop with the trail untouched, otherwise append the new head and win
exactly when it is the outlet. -/
def advance (s : GameState) : GameState :=
  if lostCond s then
    { s with phase := .lost }
  else
    let nh := newHead s
    if nh = s.outlet then
      { s with cable := s.cable ++ [nh], phase := .won }
    else
      { s with cable := s.cable ++ [nh] }

/-- Arrow-key presses handled by `_process_direction_change`; `other`
stands for any key that is none of the four arrows. -/
inductive Key where
  | kUp
  | kDown
  | kLeft
  | kRight
  | other
deriving DecidableEq, Repr

/-- Game._process_direction_change (cable-game.py lines 200-219): an
arrow key is accepted only when the matching component of the current
heading vector is zero; otherwise the heading is left unchanged. -/
def processDirectionChange (current : Direction) (key : Key) : Direction :=
  let cdx := current.value.1
  let cdy := current.value.2
  let newDirection : Option Direction :=
    if key = .kUp ∧ cdy = 0 then some .up
    else if key = .kDown ∧ cdy = 0 then some .down
    else if key = .kLeft ∧ cdx = 0 then some .left
    else if key = .kRight ∧ cdx = 0 then some .right
    else none
  newDirection.getD current

/-- Arrow key that requests a given direction. -/
def keyFor : Direction → Key
  | .up => .kUp
  | .down => .kDown
  | .left => .kLeft
  | .right => .kRight

/-- Exact opposite of a heading (180-degree reversal). -/
def Direction.opposite : Direction → Direction
  | .up => .down
  | .down => .up
  | .left => .right
  | .right => .left

/-- Two headings are perpendicular when their unit vectors are orthogonal. -/
def perpendicular (a b : Direction) : Prop :=
  a.value.1 * b.value.1 + a.value.2 * b.value.2 = 0

instance (a b : Direction) : Decidable (perpendicular a b) := by
  unfold perpendicular; infer_instance

/-- Per-obstacle random draws for one tick of `_update_obstacles`: the
optional 10%-probability heading re-roll (`none` when `random.random()`
comes out at 0.1 or above) and the heading sampled on a rejected move. -/
structure ObstacleRand where
  reroll : Option Direction
  onReject : Direction

/-- Acceptance test of `_update_obstacles` (cable-game.py lines 176-181):
destination strictly inside the 1-cell margin, off the cable, and not
the outlet. -/
def moveAccepted (w h : Int) (cable : List Cell) (outlet : Cell) (np : Cell) : Prop :=
  0 < np.1 ∧ np.1 < w - 1 ∧ 0 < np.2 ∧ np.2 < h - 1 ∧ np ∉ cable ∧ np ≠ outlet

instance (w h : Int) (cable : List Cell) (outlet : Cell) (np : Cell) :
    Decidable (moveAccepted w h cable outlet np) := by
  unfold moveAccepted; infer_instance

/-- Heading an obstacle moves with this tick: its stored heading, unless
the 10%-probability re-roll (cable-game.py lines 170-171) replaced it. -/
def effectiveDir (dirs : Cell → Direction) (rand : Cell → ObstacleRand)
    (obs : Cell) : Direction :=
  ((rand obs).reroll).getD (dirs obs)

/-- Destination of an obstacle's attempted one-cell move,
`new_pos = (obs[0] + dx, obs[1] + dy)` (cable-game.py line 174). -/
def proposedMove (dirs : Cell → Direction) (rand : Cell → ObstacleRand)
    (obs : Cell) : Cell :=
  (obs.1 + (effectiveDir dirs rand obs).value.1,
   obs.2 + (effectiveDir dirs rand obs).value.2)

/-- Body of the `for obs in self.obstacles` loop of `_update_obstacles`
(cable-game.py lines 169-187) for a single obstacle: apply the optional
re-roll to the obstacle's current heading, attempt the one-cell move, and
return the new cell/heading pair (on rejection the obstacle stays put and
receives the freshly sampled heading). -/
def obstacleStep (w h : Int) (cable : List Cell) (outlet : Cell)
    (dirs : Cell → Direction) (rand : Cell → ObstacleRand) (obs : Cell) :
    Cell × Direction :=
  if moveAccepted w h cable outlet (proposedMove dirs rand obs) then
    (proposedMove dirs rand obs, effectiveDir dirs rand obs)
  else (obs, (rand obs).onReject)

/-- Python dict assignment `m[k] = v`: overwrite in place when the key is
present, append otherwise. -/
def dictInsert (m : List (Cell × Direction)) (k : Cell) (v : Direction) :
    List (Cell × Direction) :=
  if k ∈ m.map Prod.fst then m.map (fun e => if e.1 = k then (k, v) else e)
  else m ++ [(k, v)]

/-- Game._update_obstacles (cable-game.py lines 164-190): iterate over the
obstacle set in some order `l`, building the next obstacle set
(`new_obstacles`, a set) and the next direction dict (`new_directions`)
from the per-obstacle step. -/
def updateObstaclesFold (w h : Int) (cable : List Cell) (outlet : Cell)
    (dirs : Cell → Direction) (rand : Cell → ObstacleRand) (l : List Cell) :
    Finset Cell × List (Cell × Direction) :=
  l.foldl
    (fun acc obs =>
      let r := obstacleStep w h cable outlet dirs rand obs
      (insert r.1 acc.1, dictInsert acc.2 r.1 r.2))
    (∅, [])

/-- Iterated obstacle ticks: `ObstacleRun a b` holds when `b` is the
obstacle set after some number of `_update_obstacles` passes starting
from `a`, each pass iterating the then-current set in some order. -/
inductive ObstacleRun : Finset Cell → Finset Cell → Prop where
  | refl (a : Finset Cell) : ObstacleRun a a
  | step (a b : Finset Cell) (w h : Int) (cable : List Cell) (outlet : Cell)
      (dirs : Cell → Direction) (rand : Cell → ObstacleRand) (l : List Cell) :
      l.Nodup → l.toFinset = b → ObstacleRun a b →
      ObstacleRun a (updateObstaclesFold w h cable outlet dirs rand l).1

/-- Obstacle set a tick works with: the result of `_update_obstacles`,
run on the pre-tick obstacle set iterated in order `l`. -/
def tickObstacles (dirs : Cell → Direction) (rand : Cell → ObstacleRand)
    (l : List Cell) (s : GameState) : Finset Cell :=
  (updateObstaclesFold s.width s.height s.cable s.outlet dirs rand l).1

/-- Game.update (cable-game.py lines 221-246): one tick first replaces the
obstacle set via `_update_obstacles` (iterating it in order `l` with
random draws `rand`), then runs the collision/win step `advance`. -/
def update (dirs : Cell → Direction) (rand : Cell → ObstacleRand)
    (l : List Cell) (s : GameState) : GameState :=
  advance { s with obstacles := tickObstacles dirs rand l s }

/-- Initial state of `Game.__init__` (cable-game.py lines 42-49): the
cable is seeded with the single cell (1, height-2), heading right, with
the generated obstacle set and outlet, game running. -/
def initState (w h : Int) (obstacles : Finset Cell) (outlet : Cell) : GameState :=
  { width := w, height := h, cable := [(1, h - 2)], direction := .right,
    obstacles := obstacles, outlet := outlet, phase := .active }

/-- States reachable from `s` by any sequence of direction-change key
presses and game ticks (each tick iterates the obstacle set in some order
and consumes some random draws). -/
inductive Reachable : GameState → GameState → Prop where
  | refl (s : GameState) : Reachable s s
  | key (s t : GameState) (k : Key) : Reachable s t →
      Reachable s { t with direction := processDirectionChange t.direction k }
  | tick (s t : GameState) (dirs : Cell → Direction) (rand : Cell → ObstacleRand)
      (l : List Cell) : l.Nodup → l.toFinset = t.obstacles → Reachable s t →
      Reachable s (update dirs rand l t)

/-- Offsets of the 8-neighborhood, in the order the source's nested
`for dx ... for dy ...` loops produce them (skipping (0, 0)). -/
def offsets8 : List (Int × Int) :=
  [(-1, -1), (-1, 0), (-1, 1), (0, -1), (0, 1), (1, -1), (1, 0), (1, 1)]

/-- Game._get_valid_neighbors (cable-game.py lines 94-115): the in-bounds
8-neighbors of `pos` that differ from the trail start `self.cable[0]`,
in loop order. -/
def getValidNeighbors (w h : Int) (start : Cell) (pos : Cell) : List Cell :=
  (offsets8.map (fun d => (pos.1 + d.1, pos.2 + d.2))).filter
    (fun p => decide (0 ≤ p.1 ∧ p.1 < w ∧ 0 ≤ p.2 ∧ p.2 < h ∧ p ≠ start))

/-- Model of `(random.randint(0, w-1), random.randint(0, h-1))`: an
arbitrary pair of natural draws reduced modulo the grid dimensions. -/
def randCell (w h : Int) (draw : Nat × Nat) : Cell :=
  (((draw.1 % w.toNat : Nat) : Int), ((draw.2 % h.toNat : Nat) : Int))

/-- Seed phase of `_generate_correlated_obstacles` (cable-game.py lines
126-133): sample random cells, skipping the trail start and the hardcoded
point (1, height-2), until `target` unique cells are collected; `none`
when the fuel runs out first.  The accumulator lists the set's elements
in insertion order. -/
def seedLoop (w h : Int) (start : Cell) (target : Nat) (draw : Nat → Nat × Nat) :
    Nat → Nat → List Cell → Option (List Cell)
  | 0, _, acc => if target ≤ acc.length then some acc else none
  | fuel + 1, k, acc =>
    if target ≤ acc.length then some acc
    else
      let pos := randCell w h (draw k)
      let acc' :=
        if pos ≠ start ∧ pos ≠ (1, h - 2) ∧ pos ∉ acc then acc ++ [pos] else acc
      seedLoop w h start target draw fuel (k + 1) acc'

/-- Outcome of a fuelled generator run: a normal return, the IndexError
`random.choice` raises on an empty collection, or fuel exhaustion. -/
inductive GenResult where
  | ok (l : List Cell)
  | crash
  | fuelOut
deriving DecidableEq, Repr

/-- Growth phase of `_generate_correlated_obstacles` (cable-game.py lines
135-141): while fewer than `n` obstacles exist, pick a random existing
obstacle (`random.choice` — a crash when the set is empty), compute its
valid neighbors, and when there are any, add a random one not already
present. -/
def growthLoop (w h : Int) (start : Cell) (n : Nat) (pick : Nat → Nat × Nat) :
    Nat → Nat → List Cell → GenResult
  | 0, _, acc => if n ≤ acc.length then .ok acc else .fuelOut
  | fuel + 1, k, acc =>
    if n ≤ acc.length then .ok acc
    else if acc.isEmpty then .crash
    else
      let existing := acc.getD ((pick k).1 % acc.length) (0, 0)
      let neighbors := getValidNeighbors w h start existing
      let acc' :=
        if neighbors.isEmpty then acc
        else
          let newPos := neighbors.getD ((pick k).2 % neighbors.length) (0, 0)
          if newPos ∈ acc then acc else acc ++ [newPos]
      growthLoop w h start n pick fuel (k + 1) acc'

/-- Game._generate_correlated_obstacles (cable-game.py lines 117-142):
the seed phase targeting `n / 4` cells followed by the growth phase up to
`n` cells.  At the call site in `Game.__init__` the trail start is
`(1, height - 2)`. -/
def generateCorrelatedObstacles (w h : Int) (start : Cell) (n : Nat)
    (seedDraw pick : Nat → Nat × Nat) (seedFuel growthFuel : Nat) : GenResult :=
  match seedLoop w h start (n / 4) seedDraw seedFuel 0 [] with
  | none => .fuelOut
  | some seeds => growthLoop w h start n pick growthFuel 0 seeds

/-- Acceptance test of `_generate_outlet` (cable-game.py lines 155-161):
not an obstacle, not the trail start, and Manhattan distance from the
start strictly above `width / 2`.  Python compares the integer distance
`d` against the true-division float `width / 2`; for integers that test
is exactly `2 * d > width`, the form used here so the predicate stays
kernel-computable. -/
def outletOk (w : Int) (obstacles : Finset Cell) (start : Cell) (pos : Cell) : Prop :=
  pos ∉ obstacles ∧ pos ≠ start ∧
    w < 2 * (|pos.1 - start.1| + |pos.2 - start.2|)

instance (w : Int) (obstacles : Finset Cell) (start : Cell) (pos : Cell) :
    Decidable (outletOk w obstacles start pos) := by
  unfold outletOk; infer_instance

/-- Game._generate_outlet (cable-game.py lines 144-162): sample random
cells until one passes `outletOk`; `none` when the fuel runs out first. -/
def generateOutlet (w h : Int) (obstacles : Finset Cell) (start : Cell)
    (draw : Nat → Nat × Nat) : Nat → Nat → Option Cell
  | 0, _ => none
  | fuel + 1, k =>
    let pos := randCell w h (draw k)
    if outletOk w obstacles start pos then some pos
    else generateOutlet w h obstacles start draw fuel (k + 1)

/-- Game._get_neighbors_count of archive/cable-game-v5.py (lines 153-166):
the number of in-bounds 8-neighbors of `pos` that are obstacles (cells
outside the grid are never counted). -/
def getNeighborsCount (w h : Int) (obstacles : Finset Cell) (pos : Cell) : Nat :=
  (offsets8.filter (fun d =>
    decide (0 ≤ pos.1 + d.1 ∧ pos.1 + d.1 < w ∧ 0 ≤ pos.2 + d.2 ∧ pos.2 + d.2 < h ∧
      ((pos.1 + d.1, pos.2 + d.2) : Cell) ∈ obstacles))).length

/-- All in-bounds grid cells: the `for x in range(width): for y in
range(height)` scan of `_update_life`. -/
def gridCells (w h : Int) : Finset Cell :=
  (Finset.range w.toNat ×ˢ Finset.range h.toNat).image
    (fun p => (((p.1 : Nat) : Int), ((p.2 : Nat) : Int)))

/-- Per-cell body of `_update_life` (archive/cable-game-v5.py lines
170-183): trail cells and the outlet are skipped; an obstacle survives on
a neighbor count in {2, 3}; an empty cell is born on a count of 3. -/
def lifeKeep (w h : Int) (cable : List Cell) (outlet : Cell)
    (obstacles : Finset Cell) (pos : Cell) : Bool :=
  if pos ∈ cable ∨ pos = outlet then false
  else if pos ∈ obstacles then
    decide (getNeighborsCount w h obstacles pos = 2 ∨ getNeighborsCount w h obstacles pos = 3)
  else decide (getNeighborsCount w h obstacles pos = 3)

/-- Game._update_life (archive/cable-game-v5.py lines 168-185): the next
obstacle set, computed synchronously over the whole grid from the
pre-step obstacle set. -/
def updateLife (w h : Int) (cable : List Cell) (outlet : Cell)
    (obstacles : Finset Cell) : Finset Cell :=
  (gridCells w h).filter (fun pos => lifeKeep w h cable outlet obstacles pos = true)

/-- Python `range(lo, hi + 1)` as a list of integers lo..hi. -/
def intRange (lo hi : Int) : List Int :=
  (List.range (hi + 1 - lo).toNat).map (fun i : Nat => lo + (i : Int))

/-- Offset grid of `_generate_random_soup`: `for dx in range(-size,
size+1): for dy in range(-size, size+1)`, in loop order. -/
def soupOffsets (size : Int) : List (Int × Int) :=
  (intRange (-size) size).flatMap (fun dx => (intRange (-size) size).map (fun dy => (dx, dy)))

/-- Loop of `_generate_random_soup` (archive/cable-game-v5.py lines
69-74), embedded faithfully to its bug: the variable pair
`(new_x, new_y)` (`var`, unbound at entry) is reassigned only when the
coin comes up heads, while the bounds check and `soup.add` run every
iteration on the variable's current value; reading the unbound variable
is a NameError, modelled as `none`.  Returns the list of cells passed to
`soup.add`, in order. -/
def soupLoop (w h : Int) (center : Cell) (coin : Nat → Bool) :
    List (Int × Int) → Nat → Option Cell → List Cell → Option (List Cell)
  | [], _, _, events => some events
  | o :: rest, k, var, events =>
    let var' := if coin k then some (center.1 + o.1, center.2 + o.2) else var
    match var' with
    | none => none
    | some p =>
      let events' :=
        if 0 ≤ p.1 ∧ p.1 < w ∧ 0 ≤ p.2 ∧ p.2 < h then events ++ [p] else events
      soupLoop w h center coin rest (k + 1) (some p) events'

/-- Game._generate_random_soup (archive/cable-game-v5.py lines 64-75):
the soup set is the set of all cells ever passed to `soup.add`. -/
def generateRandomSoup (w h : Int) (center : Cell) (size : Int)
    (coin : Nat → Bool) : Option (Finset Cell) :=
  (soupLoop w h center coin (soupOffsets size) 0 none []).map List.toFinset

/-- Cell inside the grid bounds, `0 <= x < width and 0 <= y < height`. -/
def inGrid (w h : Int) (c : Cell) : Prop :=
  0 ≤ c.1 ∧ c.1 < w ∧ 0 ≤ c.2 ∧ c.2 < h

instance (w h : Int) (c : Cell) : Decidable (inGrid w h c) := by
  unfold inGrid; infer_instance

/-! Helper lemmas. -/

theorem Direction.value_ne_zero (d : Direction) : ¬(d.value.1 = 0 ∧ d.value.2 = 0) := by
  cases d <;> decide

/-- Collision/win step unfolded: the loss case. -/
theorem advance_lost (s : GameState) (hc : lostCond s) :
    advance s = { s with phase := .lost } := by
  simp [advance, hc]

/-- Collision/win step unfolded: the append case. -/
theorem advance_notLost (s : GameState) (hc : ¬ lostCond s) :
    advance s = if newHead s = s.outlet then
      { s with cable := s.cable ++ [newHead s], phase := .won }
    else { s with cable := s.cable ++ [newHead s] } := by
  simp [advance, hc]

theorem advance_cable_notLost (s : GameState) (hc : ¬ lostCond s) :
    (advance s).cable = s.cable ++ [newHead s] := by
  rw [advance_notLost s hc]
  by_cases ho : newHead s = s.outlet <;> simp [ho]

theorem advance_nodup (s : GameState) (hs : s.cable.Nodup) :
    (advance s).cable.Nodup := by
  by_cases hc : lostCond s
  · rw [advance_lost s hc]; exact hs
  · have hnh : newHead s ∉ s.cable := fun hmem =>
      hc (Or.inr (Or.inr (Or.inr (Or.inr (Or.inl hmem)))))
    rw [advance_cable_notLost s hc]
    simp [List.nodup_append, hs, hnh]

theorem advance_spec (s : GameState) (hact : s.phase = .active) :
    (((advance s).phase = .lost ∧ (advance s).cable = s.cable) ↔ lostCond s) ∧
    (¬ lostCond s →
      (advance s).cable = s.cable ++ [newHead s] ∧
      ((advance s).phase = .won ↔ newHead s = s.outlet) ∧
      (newHead s ≠ s.outlet → (advance s).phase = .active)) ∧
    ((advance s).cable.length = s.cable.length ∨
      (advance s).cable.length = s.cable.length + 1) := by
  by_cases hc : lostCond s
  · rw [advance_lost s hc]
    exact ⟨⟨fun _ => hc, fun _ => ⟨rfl, rfl⟩⟩, fun hn => absurd hc hn, Or.inl rfl⟩
  · rw [advance_notLost s hc]
    by_cases ho : newHead s = s.outlet <;> simp [ho, hact, hc]

theorem reachable_nodup_aux (s t : GameState) (hr : Reachable s t)
    (hs : s.cable.Nodup) : t.cable.Nodup := by
  induction hr with
  | refl => exact hs
  | key _ _ _ ih => exact ih
  | tick _ _ _ _ _ _ _ ih => exact advance_nodup _ ih

/-! Claim theorems. -/

/-- C1: from an Active state, one tick of `Game.update` ends Lost with the
trail untouched exactly when the proposed head is out of bounds, on the
trail, or in the tick's (post-evolution) obstacle set; otherwise exactly
the new head is appended and the phase becomes Won exactly when the new
head is the outlet, else stays Active; the trail length changes by 0 or 1. -/
theorem update_collision_win_spec (dirs : Cell → Direction)
    (rand : Cell → ObstacleRand) (l : List Cell) (s : GameState)
    (hact : s.phase = .active) :
    (((update dirs rand l s).phase = .lost ∧
        (update dirs rand l s).cable = s.cable) ↔
      ((newHead s).1 < 0 ∨ s.width ≤ (newHead s).1 ∨
       (newHead s).2 < 0 ∨ s.height ≤ (newHead s).2 ∨
       newHead s ∈ s.cable ∨ newHead s ∈ tickObstacles dirs rand l s)) ∧
    (¬ ((newHead s).1 < 0 ∨ s.width ≤ (newHead s).1 ∨
        (newHead s).2 < 0 ∨ s.height ≤ (newHead s).2 ∨
        newHead s ∈ s.cable ∨ newHead s ∈ tickObstacles dirs rand l s) →
      (update dirs rand l s).cable = s.cable ++ [newHead s] ∧
      ((update dirs rand l s).phase = .won ↔ newHead s = s.outlet) ∧
      (newHead s ≠ s.outlet → (update dirs rand l s).phase = .active)) ∧
    ((update dirs rand l s).cable.length = s.cable.length ∨
      (update dirs rand l s).cable.length = s.cable.length + 1) :=
  advance_spec { s with obstacles := tickObstacles dirs rand l s } hact

/-- C1 witness: a concrete active 5x5 state with empty obstacle set where
the tick appends the new head (3, 2) and stays active. -/
theorem update_collision_win_spec_witness :
    (GameState.mk 5 5 [(2, 2)] .right ∅ (4, 4) .active).phase = .active ∧
    (update (fun _ => .right) (fun _ => ⟨none, .up⟩) []
        (GameState.mk 5 5 [(2, 2)] .right ∅ (4, 4) .active)).cable =
      [(2, 2), (3, 2)] :=
  ⟨rfl,
    ((update_collision_win_spec (fun _ => .right) (fun _ => ⟨none, .up⟩) []
        (GameState.mk 5 5 [(2, 2)] .right ∅ (4, 4) .active) rfl).2.1
      (by decide)).1⟩

/-- C2: every state reachable from the initial one-cell trail by key
presses and ticks has a duplicate-free trail, and a tick whose proposed
head repeats a trail cell ends the game Lost with the trail untouched. -/
theorem reachable_no_self_intersection (w h : Int) (obstacles : Finset Cell)
    (outlet : Cell) (t : GameState)
    (hr : Reachable (initState w h obstacles outlet) t) :
    t.cable.Nodup ∧
    ∀ dirs rand l, newHead t ∈ t.cable →
      (update dirs rand l t).cable = t.cable ∧
      (update dirs rand l t).phase = .lost := by
  constructor
  · exact reachable_nodup_aux _ _ hr (by simp [initState])
  · intro dirs rand l hmem
    have hc : lostCond { t with obstacles := tickObstacles dirs rand l t } :=
      Or.inr (Or.inr (Or.inr (Or.inr (Or.inl hmem))))
    unfold update
    rw [advance_lost _ hc]
    exact ⟨rfl, rfl⟩

/-- C2 witness: the initial state itself is reachable and duplicate-free. -/
theorem reachable_no_self_intersection_witness :
    Reachable (initState 40 40 ∅ (20, 20)) (initState 40 40 ∅ (20, 20)) ∧
    (initState 40 40 ∅ (20, 20)).cable.Nodup :=
  ⟨Reachable.refl _,
    (reachable_no_self_intersection 40 40 ∅ (20, 20) _ (Reachable.refl _)).1⟩

/-- C4: an obstacle's move along its effective heading is taken exactly
when the destination is in the interior band [1, w-2] x [1, h-2], off the
trail and not the outlet, carrying the heading; on rejection the obstacle
stays put with the freshly sampled heading; hence any obstacle that moved
lies in the interior band. -/
theorem obstacleStep_spec (w h : Int) (cable : List Cell) (outlet : Cell)
    (dirs : Cell → Direction) (rand : Cell → ObstacleRand) (obs : Cell) :
    (obstacleStep w h cable outlet dirs rand obs =
        (proposedMove dirs rand obs, effectiveDir dirs rand obs) ↔
      moveAccepted w h cable outlet (proposedMove dirs rand obs)) ∧
    (¬ moveAccepted w h cable outlet (proposedMove dirs rand obs) →
      obstacleStep w h cable outlet dirs rand obs = (obs, (rand obs).onReject)) ∧
    ((obstacleStep w h cable outlet dirs rand obs).1 ≠ obs →
      1 ≤ (obstacleStep w h cable outlet dirs rand obs).1.1 ∧
      (obstacleStep w h cable outlet dirs rand obs).1.1 ≤ w - 2 ∧
      1 ≤ (obstacleStep w h cable outlet dirs rand obs).1.2 ∧
      (obstacleStep w h cable outlet dirs rand obs).1.2 ≤ h - 2) := by
  have hne : proposedMove dirs rand obs ≠ obs := by
    intro he
    apply Direction.value_ne_zero (effectiveDir dirs rand obs)
    have h1 := congrArg Prod.fst he
    have h2 := congrArg Prod.snd he
    simp only [proposedMove] at h1 h2
    constructor <;> omega
  unfold obstacleStep
  by_cases hm : moveAccepted w h cable outlet (proposedMove dirs rand obs)
  · rw [if_pos hm]
    refine ⟨⟨fun _ => hm, fun _ => rfl⟩, fun hn => absurd hm hn, fun _ => ?_⟩
    obtain ⟨a1, a2, a3, a4, -, -⟩ := hm
    refine ⟨?_, ?_, ?_, ?_⟩ <;> dsimp only <;> omega
  · rw [if_neg hm]
    exact ⟨⟨fun he => absurd (congrArg Prod.fst he).symm hne,
        fun hm2 => absurd hm2 hm⟩,
      fun _ => rfl, fun hno => absurd rfl hno⟩

/-- C4 witness: on a 5x5 grid the obstacle at (3, 3) heading right is
rejected (destination (4, 3) is outside the interior band) and stays put
with the re-rolled heading. -/
theorem obstacleStep_spec_witness :
    ¬ moveAccepted 5 5 [(2, 2)] (4, 4)
        (proposedMove (fun _ => .right) (fun _ => ⟨none, .up⟩) (3, 3)) ∧
    obstacleStep 5 5 [(2, 2)] (4, 4) (fun _ => .right)
        (fun _ => ⟨none, .up⟩) (3, 3) = ((3, 3), .up) :=
  ⟨by decide,
    (obstacleStep_spec 5 5 [(2, 2)] (4, 4) (fun _ => .right)
        (fun _ => ⟨none, .up⟩) (3, 3)).2.1 (by decide)⟩

/-- C5: a requested heading exactly opposite to the current one is
rejected (the heading is unchanged), while a perpendicular request always
replaces the heading. -/
theorem directionChange_spec (c r : Direction) :
    processDirectionChange c (keyFor c.opposite) = c ∧
    (perpendicular c r → processDirectionChange c (keyFor r) = r) := by
  cases c <;> cases r <;> decide

/-- C5 witness: current Right with requested Left stays Right; requested
Up (perpendicular) is accepted. -/
theorem directionChange_spec_witness :
    perpendicular .right .up ∧
    processDirectionChange .right (keyFor (Direction.opposite .right)) = .right ∧
    processDirectionChange .right (keyFor .up) = .up :=
  ⟨by decide, (directionChange_spec .right .up).1,
    (directionChange_spec .right .up).2 (by decide)⟩

theorem mem_gridCells (w h : Int) (pos : Cell) :
    pos ∈ gridCells w h ↔ inGrid w h pos := by
  unfold gridCells inGrid
  simp only [Finset.mem_image, Finset.mem_product, Finset.mem_range, Prod.exists]
  constructor
  · rintro ⟨a, b, ⟨ha, hb⟩, heq⟩
    rw [← heq]
    exact ⟨by omega, by omega, by omega, by omega⟩
  · rintro ⟨h1, h2, h3, h4⟩
    refine ⟨pos.1.toNat, pos.2.toNat, ⟨by omega, by omega⟩, ?_⟩
    simp only [Prod.ext_iff]
    constructor <;> simp <;> omega

/-- C3: a grid cell off the trail and not the outlet is in the next
Game-of-Life generation exactly when it is an obstacle with 2 or 3
occupied 8-neighbors or an empty cell with exactly 3; any cell on the
trail or equal to the outlet is absent from the next generation, which is
computed synchronously from the pre-step obstacle set. -/
theorem updateLife_spec (w h : Int) (cable : List Cell) (outlet : Cell)
    (obstacles : Finset Cell) (pos : Cell) :
    (pos ∈ cable ∨ pos = outlet → pos ∉ updateLife w h cable outlet obstacles) ∧
    (inGrid w h pos → pos ∉ cable → pos ≠ outlet →
      (pos ∈ updateLife w h cable outlet obstacles ↔
        (pos ∈ obstacles ∧ (getNeighborsCount w h obstacles pos = 2 ∨
          getNeighborsCount w h obstacles pos = 3)) ∨
        (pos ∉ obstacles ∧ getNeighborsCount w h obstacles pos = 3))) := by
  constructor
  · intro hto hin
    rw [updateLife, Finset.mem_filter] at hin
    rw [lifeKeep, if_pos hto] at hin
    exact absurd hin.2 (by simp)
  · intro hg hc ho
    rw [updateLife, Finset.mem_filter, mem_gridCells]
    rw [lifeKeep, if_neg (by simp [hc, ho])]
    by_cases hob : pos ∈ obstacles <;> simp [hob, hg]

/-- C3 witness: the middle-left cell (1, 2) of a vertical blinker on a
5x5 grid is empty with exactly 3 occupied neighbors and is born. -/
theorem updateLife_spec_witness :
    (inGrid 5 5 ((1 : Int), (2 : Int)) ∧
      ((1 : Int), (2 : Int)) ∉ ([] : List Cell) ∧
      ((1 : Int), (2 : Int)) ≠ ((4 : Int), (4 : Int))) ∧
    ((1, 2) : Cell) ∈ updateLife 5 5 [] (4, 4) {(2, 1), (2, 2), (2, 3)} :=
  ⟨⟨by decide, by decide, by decide⟩,
    ((updateLife_spec 5 5 [] (4, 4) {(2, 1), (2, 2), (2, 3)} (1, 2)).2
      (by decide) (by decide) (by decide)).mpr (by decide)⟩

theorem dictInsert_keys (m : List (Cell × Direction)) (k : Cell) (v : Direction) :
    (dictInsert m k v).map Prod.fst =
      if k ∈ m.map Prod.fst then m.map Prod.fst else m.map Prod.fst ++ [k] := by
  unfold dictInsert
  by_cases hk : k ∈ m.map Prod.fst
  · rw [if_pos hk, if_pos hk, List.map_map]
    refine List.map_congr_left ?_
    intro e he
    by_cases h : e.1 = k <;> simp [h]
  · rw [if_neg hk, if_neg hk]
    simp

theorem dictInsert_keys_nodup (m : List (Cell × Direction)) (k : Cell)
    (v : Direction) (hm : (m.map Prod.fst).Nodup) :
    ((dictInsert m k v).map Prod.fst).Nodup := by
  rw [dictInsert_keys]
  by_cases hk : k ∈ m.map Prod.fst
  · rwa [if_pos hk]
  · rw [if_neg hk]
    simp [List.nodup_append, hm, hk]

theorem dictInsert_keys_toFinset (m : List (Cell × Direction)) (k : Cell)
    (v : Direction) :
    ((dictInsert m k v).map Prod.fst).toFinset =
      insert k (m.map Prod.fst).toFinset := by
  rw [dictInsert_keys]
  by_cases hk : k ∈ m.map Prod.fst
  · rw [if_pos hk, Finset.insert_eq_self.mpr (List.mem_toFinset.mpr hk)]
  · rw [if_neg hk, List.toFinset_append]
    simp [Finset.insert_eq, Finset.union_comm]

theorem updateObstaclesFold_inv (w h : Int) (cable : List Cell) (outlet : Cell)
    (dirs : Cell → Direction) (rand : Cell → ObstacleRand) (l : List Cell)
    (acc : Finset Cell × List (Cell × Direction))
    (hkeys : (acc.2.map Prod.fst).Nodup)
    (hset : (acc.2.map Prod.fst).toFinset = acc.1) :
    ((l.foldl
        (fun acc obs =>
          let r := obstacleStep w h cable outlet dirs rand obs
          (insert r.1 acc.1, dictInsert acc.2 r.1 r.2))
        acc).2.map Prod.fst).Nodup ∧
    ((l.foldl
        (fun acc obs =>
          let r := obstacleStep w h cable outlet dirs rand obs
          (insert r.1 acc.1, dictInsert acc.2 r.1 r.2))
        acc).2.map Prod.fst).toFinset =
      (l.foldl
        (fun acc obs =>
          let r := obstacleStep w h cable outlet dirs rand obs
          (insert r.1 acc.1, dictInsert acc.2 r.1 r.2))
        acc).1 ∧
    (l.foldl
        (fun acc obs =>
          let r := obstacleStep w h cable outlet dirs rand obs
          (insert r.1 acc.1, dictInsert acc.2 r.1 r.2))
        acc).1.card ≤ acc.1.card + l.length := by
  induction l generalizing acc with
  | nil => simpa using ⟨hkeys, hset⟩
  | cons x xs ih =>
    rw [List.foldl_cons]
    have hk' := dictInsert_keys_nodup acc.2
      (obstacleStep w h cable outlet dirs rand x).1
      (obstacleStep w h cable outlet dirs rand x).2 hkeys
    have hs' : (((dictInsert acc.2 (obstacleStep w h cable outlet dirs rand x).1
        (obstacleStep w h cable outlet dirs rand x).2)).map Prod.fst).toFinset =
        insert (obstacleStep w h cable outlet dirs rand x).1 acc.1 := by
      rw [dictInsert_keys_toFinset, hset]
    have := ih (insert (obstacleStep w h cable outlet dirs rand x).1 acc.1,
      dictInsert acc.2 (obstacleStep w h cable outlet dirs rand x).1
        (obstacleStep w h cable outlet dirs rand x).2) hk' hs'
    refine ⟨this.1, this.2.1, le_trans this.2.2 ?_⟩
    have := Finset.card_insert_le (obstacleStep w h cable outlet dirs rand x).1 acc.1
    simp only [List.length_cons]
    omega

theorem obstacleRun_card (a b : Finset Cell) (hr : ObstacleRun a b) :
    b.card ≤ a.card := by
  induction hr with
  | refl => exact le_rfl
  | step b w h cable outlet dirs rand l hnd hto hprev ih =>
    have hinv := updateObstaclesFold_inv w h cable outlet dirs rand l (∅, [])
      (by simp) (by simp)
    have hcard : (updateObstaclesFold w h cable outlet dirs rand l).1.card ≤
        l.length := by simpa using hinv.2.2
    have : l.length = b.card := by
      rw [← hto]
      exact (List.toFinset_card_of_nodup hnd).symm
    omega

/-- C10: one obstacle tick never increases the number of obstacles; the
direction map it builds has exactly one entry per new obstacle cell (its
key set equals the new obstacle set, without duplicates); and across any
run of ticks the obstacle count is monotonically non-increasing. -/
theorem updateObstacles_count_spec (w h : Int) (cable : List Cell)
    (outlet : Cell) (dirs : Cell → Direction) (rand : Cell → ObstacleRand)
    (l : List Cell) (hl : l.Nodup) :
    (updateObstaclesFold w h cable outlet dirs rand l).1.card ≤ l.toFinset.card ∧
    ((updateObstaclesFold w h cable outlet dirs rand l).2.map Prod.fst).Nodup ∧
    ((updateObstaclesFold w h cable outlet dirs rand l).2.map Prod.fst).toFinset =
      (updateObstaclesFold w h cable outlet dirs rand l).1 ∧
    (∀ a b : Finset Cell, ObstacleRun a b → b.card ≤ a.card) := by
  have hinv := updateObstaclesFold_inv w h cable outlet dirs rand l (∅, [])
    (by simp) (by simp)
  refine ⟨?_, hinv.1, hinv.2.1, fun a b hr => obstacleRun_card a b hr⟩
  have := hinv.2.2
  rw [List.toFinset_card_of_nodup hl]
  simpa using this

/-- C10 witness: a concrete two-obstacle tick on a 5x5 grid. -/
theorem updateObstacles_count_spec_witness :
    ([((1 : Int), (1 : Int)), (3, 3)] : List Cell).Nodup ∧
    (updateObstaclesFold 5 5 [(2, 2)] (4, 4) (fun _ => .right)
        (fun _ => ⟨none, .up⟩) [(1, 1), (3, 3)]).1.card ≤
      ([((1 : Int), (1 : Int)), (3, 3)] : List Cell).toFinset.card :=
  ⟨by decide,
    (updateObstacles_count_spec 5 5 [(2, 2)] (4, 4) (fun _ => .right)
      (fun _ => ⟨none, .up⟩) [(1, 1), (3, 3)] (by decide)).1⟩

theorem getD_mem (l : List Cell) (i : Nat) (d : Cell) (h : i < l.length) :
    l.getD i d ∈ l := by
  induction l generalizing i with
  | nil => simp at h
  | cons x xs ih =>
    cases i with
    | zero => simp [List.getD]
    | succ n =>
      exact List.mem_cons_of_mem _ (ih n (by simpa using h))

theorem randCell_inGrid (w h : Int) (hw : 0 < w) (hh : 0 < h)
    (draw : Nat × Nat) : inGrid w h (randCell w h draw) := by
  unfold randCell inGrid
  have h1 : draw.1 % w.toNat < w.toNat := Nat.mod_lt _ (by omega)
  have h2 : draw.2 % h.toNat < h.toNat := Nat.mod_lt _ (by omega)
  exact ⟨by omega, by omega, by omega, by omega⟩

theorem getValidNeighbors_mem (w h : Int) (start pos c : Cell)
    (hc : c ∈ getValidNeighbors w h start pos) :
    inGrid w h c ∧ c ≠ start := by
  unfold getValidNeighbors at hc
  rw [List.mem_filter] at hc
  have hp := of_decide_eq_true hc.2
  exact ⟨⟨hp.1, hp.2.1, hp.2.2.1, hp.2.2.2.1⟩, hp.2.2.2.2⟩

theorem seedLoop_ok (w h : Int) (hw : 0 < w) (hh : 0 < h) (start : Cell)
    (target : Nat) (draw : Nat → Nat × Nat) :
    ∀ (fuel k : Nat) (acc l : List Cell),
      acc.Nodup → acc.length ≤ target →
      (∀ c ∈ acc, inGrid w h c ∧ c ≠ start ∧ c ≠ (1, h - 2)) →
      seedLoop w h start target draw fuel k acc = some l →
      l.Nodup ∧ l.length = target ∧
        ∀ c ∈ l, inGrid w h c ∧ c ≠ start ∧ c ≠ (1, h - 2) := by
  intro fuel
  induction fuel with
  | zero =>
    intro k acc l hnd hlen hprop hres
    rw [seedLoop] at hres
    split at hres
    · cases hres
      exact ⟨hnd, by omega, hprop⟩
    · exact absurd hres (by simp)
  | succ m ih =>
    intro k acc l hnd hlen hprop hres
    rw [seedLoop] at hres
    split at hres
    · cases hres
      exact ⟨hnd, by omega, hprop⟩
    · rename_i hgt
      dsimp only at hres
      by_cases hcond : randCell w h (draw k) ≠ start ∧
          randCell w h (draw k) ≠ (1, h - 2) ∧ randCell w h (draw k) ∉ acc
      · rw [if_pos hcond] at hres
        refine ih (k + 1) _ l ?_ ?_ ?_ hres
        · simp [List.nodup_append, hnd, hcond.2.2]
        · simp only [List.length_append, List.length_cons, List.length_nil]
          omega
        · intro c hcmem
          rcases List.mem_append.mp hcmem with hin | hin
          · exact hprop c hin
          · rw [List.mem_singleton.mp hin]
            exact ⟨randCell_inGrid w h hw hh (draw k), hcond.1, hcond.2.1⟩
      · rw [if_neg hcond] at hres
        exact ih (k + 1) acc l hnd hlen hprop hres

theorem growthLoop_ok (w h : Int) (start : Cell) (n : Nat)
    (pick : Nat → Nat × Nat) :
    ∀ (fuel k : Nat) (acc l : List Cell),
      acc.Nodup → acc.length ≤ n →
      (∀ c ∈ acc, inGrid w h c ∧ c ≠ start) →
      growthLoop w h start n pick fuel k acc = .ok l →
      l.Nodup ∧ l.length = n ∧ ∀ c ∈ l, inGrid w h c ∧ c ≠ start := by
  intro fuel
  induction fuel with
  | zero =>
    intro k acc l hnd hlen hprop hres
    rw [growthLoop] at hres
    split at hres
    · cases hres
      exact ⟨hnd, by omega, hprop⟩
    · exact absurd hres (by simp)
  | succ m ih =>
    intro k acc l hnd hlen hprop hres
    rw [growthLoop] at hres
    split at hres
    · cases hres
      exact ⟨hnd, by omega, hprop⟩
    · rename_i hgt
      split at hres
      · exact absurd hres (by simp)
      · rename_i hne
        dsimp only at hres
        by_cases hns : (getValidNeighbors w h start
            (acc.getD ((pick k).1 % acc.length) (0, 0))).isEmpty
        · rw [if_pos hns] at hres
          exact ih (k + 1) acc l hnd hlen hprop hres
        · rw [if_neg hns] at hres
          set nbrs := getValidNeighbors w h start
            (acc.getD ((pick k).1 % acc.length) (0, 0)) with hnbrs
          have hlen0 : 0 < nbrs.length := by
            cases hn0 : nbrs with
            | nil => rw [hn0] at hns; exact absurd rfl hns
            | cons a t => simp [hn0]
          have hmem : nbrs.getD ((pick k).2 % nbrs.length) (0, 0) ∈ nbrs :=
            getD_mem _ _ _ (Nat.mod_lt _ hlen0)
          have hprops := getValidNeighbors_mem w h start _ _ hmem
          by_cases hdup : nbrs.getD ((pick k).2 % nbrs.length) (0, 0) ∈ acc
          · rw [if_pos hdup] at hres
            exact ih (k + 1) acc l hnd hlen hprop hres
          · rw [if_neg hdup] at hres
            refine ih (k + 1) _ l ?_ ?_ ?_ hres
            · refine List.nodup_append.mpr ⟨hnd, List.nodup_singleton _, ?_⟩
              intro a ha hb
              rw [List.mem_singleton.mp hb] at ha
              exact hdup ha
            · simp only [List.length_append, List.length_cons, List.length_nil]
              omega
            · intro c hcmem
              rcases List.mem_append.mp hcmem with hin | hin
              · exact hprop c hin
              · rw [List.mem_singleton.mp hin]
                exact hprops

/-- C6: whenever the correlated obstacle generator returns (called, as in
`Game.__init__`, with the trail start (1, height-2), which is also the
hardcoded exclusion point), its result is a duplicate-free list of
exactly N cells, all inside the grid and none equal to (1, height-2). -/
theorem generateCorrelatedObstacles_spec (w h : Int) (hw : 0 < w) (hh : 0 < h)
    (n : Nat) (hn : 4 ≤ n) (seedDraw pick : Nat → Nat × Nat)
    (seedFuel growthFuel : Nat) (l : List Cell)
    (hres : generateCorrelatedObstacles w h (1, h - 2) n seedDraw pick
        seedFuel growthFuel = .ok l) :
    l.Nodup ∧ l.length = n ∧ ∀ c ∈ l, inGrid w h c ∧ c ≠ (1, h - 2) := by
  unfold generateCorrelatedObstacles at hres
  cases hseed : seedLoop w h (1, h - 2) (n / 4) seedDraw seedFuel 0 [] with
  | none =>
    rw [hseed] at hres
    exact absurd hres (by simp)
  | some seeds =>
    rw [hseed] at hres
    have hs := seedLoop_ok w h hw hh (1, h - 2) (n / 4) seedDraw seedFuel 0 []
      seeds (by simp) (by simp) (by simp) hseed
    have hg := growthLoop_ok w h (1, h - 2) n pick growthFuel 0 seeds l hs.1
      (by have := hs.2.1; have := Nat.div_le_self n 4; omega)
      (fun c hc => ⟨(hs.2.2 c hc).1, (hs.2.2 c hc).2.1⟩) hres
    exact ⟨hg.1, hg.2.1, hg.2.2⟩

/-- C6 witness: a concrete terminating run on a 5x5 grid, N = 4. -/
theorem generateCorrelatedObstacles_spec_witness :
    ((0 : Int) < 5 ∧ 4 ≤ 4 ∧
      generateCorrelatedObstacles 5 5 (1, 5 - 2) 4 (fun k => (k, k))
        (fun k => (0, k)) 10 10 =
        .ok [((0 : Int), (0 : Int)), (0, 1), (1, 0), (1, 1)]) ∧
    ([((0 : Int), (0 : Int)), (0, 1), (1, 0), (1, 1)].Nodup ∧
      [((0 : Int), (0 : Int)), (0, 1), (1, 0), (1, 1)].length = 4) := by
  have H := generateCorrelatedObstacles_spec 5 5 (by decide) (by decide) 4
    (by decide) (fun k => (k, k)) (fun k => (0, k)) 10 10
    [((0 : Int), (0 : Int)), (0, 1), (1, 0), (1, 1)] (by decide)
  exact ⟨⟨by decide, by decide, by decide⟩, H.1, H.2.1⟩

/-- C7: whenever the outlet generator returns a cell, it is inside the
grid, not an obstacle, not the trail start, and its Manhattan distance
from the start strictly exceeds width / 2. -/
theorem generateOutlet_spec (w h : Int) (hw : 0 < w) (hh : 0 < h)
    (obstacles : Finset Cell) (start : Cell) (draw : Nat → Nat × Nat)
    (fuel k : Nat) (pos : Cell)
    (hres : generateOutlet w h obstacles start draw fuel k = some pos) :
    inGrid w h pos ∧ pos ∉ obstacles ∧ pos ≠ start ∧
      (w : ℚ) / 2 < ((|pos.1 - start.1| + |pos.2 - start.2| : Int) : ℚ) := by
  induction fuel generalizing k with
  | zero =>
    rw [generateOutlet] at hres
    exact absurd hres (by simp)
  | succ m ih =>
    rw [generateOutlet] at hres
    by_cases hok : outletOk w obstacles start (randCell w h (draw k))
    · rw [if_pos hok] at hres
      injection hres with he
      rw [← he]
      refine ⟨randCell_inGrid w h hw hh (draw k), hok.1, hok.2.1, ?_⟩
      have h2 : ((w : ℚ)) <
          2 * ((|(randCell w h (draw k)).1 - start.1| +
            |(randCell w h (draw k)).2 - start.2| : Int) : ℚ) := by
        exact_mod_cast hok.2.2
      linarith
    · rw [if_neg hok] at hres
      exact ih (k + 1) hres

/-- C7 witness: a concrete terminating run on a 10x10 grid with one
obstacle, start (1, 8), yielding outlet (9, 2) at Manhattan distance 14. -/
theorem generateOutlet_spec_witness :
    generateOutlet 10 10 {((0 : Int), (0 : Int))} (1, 8)
        (fun k => (9 * k, 2 * k)) 6 0 = some (9, 2) ∧
    (inGrid 10 10 ((9 : Int), (2 : Int)) ∧
      ((9 : Int), (2 : Int)) ∉ ({((0 : Int), (0 : Int))} : Finset Cell) ∧
      ((9 : Int), (2 : Int)) ≠ ((1 : Int), (8 : Int)) ∧
      (10 : ℚ) / 2 < ((|(9 : Int) - 1| + |(2 : Int) - 8| : Int) : ℚ)) :=
  ⟨by decide,
    generateOutlet_spec 10 10 (by decide) (by decide) {((0 : Int), (0 : Int))}
      (1, 8) (fun k => (9 * k, 2 * k)) 6 0 (9, 2) (by decide)⟩

/-- C9: for 1 <= N <= 3 the correlated generator cannot return a set: the
seed phase targets N / 4 = 0 cells, so the growth phase immediately calls
`random.choice` on an empty collection and raises. -/
theorem generateCorrelatedObstacles_small_crash (w h : Int) (start : Cell)
    (n : Nat) (h1 : 1 ≤ n) (h3 : n ≤ 3) (seedDraw pick : Nat → Nat × Nat)
    (seedFuel growthFuel : Nat) (hf : 1 ≤ growthFuel) :
    generateCorrelatedObstacles w h start n seedDraw pick seedFuel
      growthFuel = .crash := by
  have hquart : n / 4 = 0 := by omega
  have hseed : seedLoop w h start (n / 4) seedDraw seedFuel 0 [] = some [] := by
    cases seedFuel <;> rw [seedLoop] <;> simp [hquart]
  unfold generateCorrelatedObstacles
  rw [hseed]
  obtain ⟨m, rfl⟩ : ∃ m, growthFuel = m + 1 := ⟨growthFuel - 1, by omega⟩
  show growthLoop w h start n pick (m + 1) 0 [] = .crash
  rw [growthLoop]
  rw [if_neg (by simp; omega)]
  simp

/-- C9 witness: N = 2 crashes on a 5x5 grid. -/
theorem generateCorrelatedObstacles_small_crash_witness :
    (1 ≤ 2 ∧ 2 ≤ 3 ∧ 1 ≤ 3) ∧
    generateCorrelatedObstacles 5 5 (1, 3) 2 (fun k => (k, k))
      (fun k => (0, k)) 3 3 = .crash :=
  ⟨⟨by decide, by decide, by decide⟩,
    generateCorrelatedObstacles_small_crash 5 5 (1, 3) 2 (by decide)
      (by decide) (fun k => (k, k)) (fun k => (0, k)) 3 3 (by decide)⟩

theorem intRange_ne_nil (lo hi : Int) (hle : lo ≤ hi) : intRange lo hi ≠ [] := by
  intro hnil
  have hl := congrArg List.length hnil
  simp only [intRange, List.length_map, List.length_range, List.length_nil] at hl
  omega

theorem soupOffsets_ne_nil (size : Int) (hs : 0 ≤ size) :
    soupOffsets size ≠ [] := by
  unfold soupOffsets
  cases hr : intRange (-size) size with
  | nil => exact absurd hr (intRange_ne_nil (-size) size (by omega))
  | cons a t => simp

/-- C8: in the random-soup generator the offset cell is computed only
inside the probability-1/2 branch while the bounds check and `soup.add`
run every iteration: whenever the very first coin misses, the unbound
variable is read and the run fails; and with the coin true only at
iteration 0 on a 10x10 grid around (5, 5) every later (skipped-branch)
iteration re-adds the stale cell (4, 4) — the events list is nine copies
of (4, 4) — although the fresh offset cell of iteration 1 would be
(5, 5) + (-1, 0) = (4, 5), not (4, 4). -/
theorem randomSoup_bug_spec (w h : Int) (center : Cell) (size : Int)
    (coin : Nat → Bool) (hsz : 0 ≤ size) (hc : coin 0 = false) :
    generateRandomSoup w h center size coin = none ∧
    (soupLoop 10 10 (5, 5) (fun k => decide (k = 0)) (soupOffsets 1) 0 none [] =
        some (List.replicate 9 ((4 : Int), (4 : Int))) ∧
      ((5 : Int) + ((soupOffsets 1).getD 1 (0, 0)).1,
        (5 : Int) + ((soupOffsets 1).getD 1 (0, 0)).2) ≠ ((4 : Int), (4 : Int))) := by
  refine ⟨?_, by decide, by decide⟩
  unfold generateRandomSoup
  cases hoff : soupOffsets size with
  | nil => exact absurd hoff (soupOffsets_ne_nil size hsz)
  | cons o rest =>
    rw [soupLoop, hc]
    simp

/-- C8 witness: an all-tails coin makes the generator fail at once. -/
theorem randomSoup_bug_spec_witness :
    ((0 : Int) ≤ 1 ∧ (fun _ : Nat => false) 0 = false) ∧
    generateRandomSoup 10 10 (5, 5) 1 (fun _ => false) = none :=
  ⟨⟨by decide, rfl⟩,
    (randomSoup_bug_spec 10 10 (5, 5) 1 (fun _ => false) (by decide) rfl).1⟩

end CableGame
